import Mathlib

/-
Shallow embedding of `yatsm.py` (the YATSM break-detection time series model)
and proofs about its segmentation state machine.

Modelling conventions:
* Numbers are exact rationals (`ℚ`); machine floats are idealised.
* The design matrix `X` is a list of rows; column 1 of a row is the ordinal
  date, as in the source (`self.X[:, 1]`).
* The response matrix `Y` is a list of band rows.
* External libraries (statsmodels `RLM` robust regression, glmnet / sklearn
  lasso solvers) are not part of this repository; they are abstracted as
  oracle parameters (`Oracles`).  Everything else follows the source.
* Euclidean-norm comparisons `np.linalg.norm v > t` are embedded by the
  executable test `normGt v t` (`t < 0 ∨ t * t < Σ vᵢ²`), which is proved
  equivalent to the real-valued statement `t < Real.sqrt (Σ vᵢ²)`.
* Python list indexing is embedded with `List.getD` (all reachable uses are
  in bounds).
-/

/- Batteries marks the `Rat` arithmetic `@[irreducible]`, which blocks the
`decide` tactic's evaluator (the kernel is unaffected).  Restore the default
reducibility locally so that concrete runs of the embedding evaluate. -/
attribute [local semireducible] Rat.add Rat.sub Rat.mul Rat.inv Rat.ofScientific

set_option maxRecDepth 40000

namespace Yatsm

/-! ### Constants from the top of `yatsm.py` -/

def ndays : ℚ := 365.25

def green_band : Nat := 1

def swir1_band : Nat := 4

/-- Default critical value of `multitemp_mask` (`crit=400`). -/
def default_crit : ℚ := 400

/-- Source `sys.float_info.min` = 2^(-1022), the default for `min_rmse` when the
caller passes `None` ("set to max float size so it never is minimum" — in
fact the smallest positive normal double, so it never binds). -/
def default_min_rmse : ℚ := 1 / 2 ^ 1022

/-! ### List helpers used by the embedding -/

/-- Boolean-mask selection `l[mask]` (numpy fancy indexing with aligned
lengths). -/
def maskFilter : List α → List Bool → List α
  | [], _ => []
  | _ :: _, [] => []
  | a :: l, b :: m => if b then a :: maskFilter l m else maskFilter l m

/-- Python slice `l[:-k]`: for `k = 0` Python yields the empty list
(`l[:-0] = l[:0]`), otherwise everything but the last `k` elements. -/
def pyDropLast (l : List α) (k : Nat) : List α :=
  if k = 0 then [] else l.take (l.length - k)

def countTrue (l : List Bool) : Nat := l.count true

/-- Sum of squares of a vector (`np.linalg.norm v ^ 2`). -/
def sumSq (l : List ℚ) : ℚ := (l.map (fun q => q * q)).sum

/-- Executable test for `np.linalg.norm v > t`: equivalent to
`t < Real.sqrt (sumSq v)` (see `normGt_iff_sqrt`). -/
def normGt (l : List ℚ) (t : ℚ) : Bool :=
  decide (t < 0) || decide (t * t < sumSq l)

/-! ### Data model -/

/-- A fitted per-band regression model (`GLMLasso` / `LassoLarsIC` result):
coefficient vector with the intercept folded into entry 0, model RMSE, and
the `predict` operation. -/
structure Model where
  coef : List ℚ
  rmse : ℚ
  pred : List ℚ → ℚ

def dModel : Model := ⟨[], 0, fun _ => 0⟩

instance : Inhabited Model := ⟨dModel⟩

/-- Oracles abstracting the external numerical libraries:
* `rlmResid x nYearCeil y`: residuals of `sm.RLM(y, designX, TukeyBiweight).fit()`
  inside `multitemp_mask` (the design only depends on `x` and `⌈n_year⌉`);
* `lasso rows y`: the lasso solver behind `fit_models_GLMnet` /
  `fit_models_LassoCV` (glmnet `elastic_net` resp. sklearn);
* `rirls rows y`: parameters and RMSE of the robust refit
  `sm.RLM(y, X[:, nonzero], TukeyBiweight).fit()` in `robust_record`. -/
structure Oracles where
  rlmResid : List ℚ → ℤ → List ℚ → List ℚ
  lasso : List (List ℚ) → List ℚ → Model
  rirls : List (List ℚ) → List ℚ → List ℚ × ℚ

/-- Construction-time configuration of a `YATSM` instance. -/
structure Cfg where
  consecutive : Nat
  threshold : ℚ
  min_obs : Nat
  min_rmse : ℚ
  fit_indices : List Nat
  test_indices : List Nat
  n_coef : Nat

/-- One segment record.  Field names `stop` and `brk` stand for the source
record fields `'end'` and `'break'` (Lean keywords). -/
structure Rec where
  start : ℚ
  stop : ℚ
  brk : ℚ
  coef : List (List ℚ)
  rmse : List ℚ
deriving DecidableEq

def dRec : Rec := ⟨0, 0, 0, [], []⟩

instance : Inhabited Rec := ⟨dRec⟩

/-- Source `self.record_template`: an all-zero record. -/
def record_template (c : Cfg) : Rec :=
  ⟨0, 0, 0, List.replicate c.n_coef (List.replicate c.fit_indices.length 0),
    List.replicate c.fit_indices.length 0⟩

/-- The mutable instance state of a `YATSM` object. -/
structure St where
  X : List (List ℚ)
  Y : List (List ℚ)
  start : Nat
  here : Nat
  hereSaved : Nat        -- `self._here`
  monitoring : Bool
  ran : Bool
  models : List Model
  trained_date : ℚ
  record : List Rec
  n_record : Nat

/-- Source `self.X[i, 1]`: ordinal date of observation `i`. -/
def xdate (X : List (List ℚ)) (i : Nat) : ℚ := (X.getD i []).getD 1 0

/-- Source `self.Y[b, i]`. -/
def yval (Y : List (List ℚ)) (b i : Nat) : ℚ := (Y.getD b []).getD i 0

/-- Source `span_time`: `abs(X[here, 1] - X[start, 1])`. -/
def span_time (s : St) : ℚ := |xdate s.X s.here - xdate s.X s.start|

/-- Source `span_index`: `here - start`. -/
def span_index (s : St) : Nat := s.here - s.start

/-- Source `running`: `here < X.shape[0]`. -/
def running (s : St) : Prop := s.here < s.X.length

instance (s : St) : Decidable (running s) :=
  inferInstanceAs (Decidable (s.here < s.X.length))

/-- Source `can_monitor`: `here < X.shape[0] - consecutive - 1` (over ℤ). -/
def can_monitor (c : Cfg) (s : St) : Prop :=
  s.here + c.consecutive + 1 < s.X.length

instance (c : Cfg) (s : St) : Decidable (can_monitor c s) :=
  inferInstanceAs (Decidable (s.here + c.consecutive + 1 < s.X.length))

/-! ### `multitemp_mask` -/

/-- Source `multitemp_mask(x, Y, n_year, crit)`: the robust regressions are the
`rlmResid` oracle; an observation is kept iff its green-band residual is
below `crit` and its swir1-band residual is above `-crit`. -/
def multitemp_mask (or' : Oracles) (x : List ℚ) (Y : List (List ℚ))
    (n_year : ℚ) (crit : ℚ) : List Bool :=
  let ny : ℤ := ⌈n_year⌉
  let greenResid := or'.rlmResid x ny (Y.getD green_band [])
  let swir1Resid := or'.rlmResid x ny (Y.getD swir1_band [])
  List.zipWith (fun g s => decide (g < crit) && decide (-crit < s))
    greenResid swir1Resid

/-! ### `fit_models` -/

/-- Source `fit_models(X, Y, index, bands)` with its defaults
`index = arange(self.start, self.here + 1)`, `bands = self.fit_indices`;
one lasso fit per band. -/
def fitModels (c : Cfg) (or' : Oracles) (st hr : Nat)
    (X Y : List (List ℚ)) (index : Option (List Nat))
    (bands : Option (List Nat)) : List Model :=
  let bands' := bands.getD c.fit_indices
  let index' := index.getD (List.range' st (hr + 1 - st))
  bands'.map (fun b =>
    or'.lasso (index'.map (fun i => X.getD i []))
      (index'.map (fun i => yval Y b i)))

/-! ### `train()` -/

/-- Guard at the top of `train()`:
`span_time <= ndays or span_index < n_coef` means "could not train". -/
def trainGuard (c : Cfg) (s : St) : Prop :=
  span_time s ≤ ndays ∨ span_index s < c.n_coef

instance (c : Cfg) (s : St) : Decidable (trainGuard c s) :=
  inferInstanceAs (Decidable (span_time s ≤ ndays ∨ span_index s < c.n_coef))

/-- Source `index = np.arange(start, here + consecutive)`. -/
def trainIdx (c : Cfg) (s : St) : List Nat :=
  List.range' s.start (s.here + c.consecutive - s.start)

/-- The mask values returned by `multitemp_mask` on the training window. -/
def trainMaskVals (c : Cfg) (or' : Oracles) (s : St) : List Bool :=
  multitemp_mask or' ((trainIdx c s).map (xdate s.X))
    (s.Y.map (fun row => (trainIdx c s).map (fun i => row.getD i 0)))
    (span_time s) default_crit

/-- Source `mask = np.ones(n, bool); mask[index] = multitemp_mask(...)`. -/
def trainMask (c : Cfg) (or' : Oracles) (s : St) : List Bool :=
  (List.range s.X.length).map (fun i =>
    if s.start ≤ i ∧ i < s.here + c.consecutive then
      (trainMaskVals c or' s).getD (i - s.start) true
    else true)

/-- Source `_span_index = mask[index][:-consecutive].sum()`. -/
def train_span_index (c : Cfg) (or' : Oracles) (s : St) : Nat :=
  countTrue (pyDropLast ((trainIdx c s).map
    (fun i => (trainMask c or' s).getD i true)) c.consecutive)

/-- Source `self._X = self.X[mask, :]`. -/
def trainX (c : Cfg) (or' : Oracles) (s : St) : List (List ℚ) :=
  maskFilter s.X (trainMask c or' s)

/-- Source `self._Y = self.Y[:, mask]`. -/
def trainY (c : Cfg) (or' : Oracles) (s : St) : List (List ℚ) :=
  s.Y.map (fun row => maskFilter row (trainMask c or' s))

/-- Source `self.here = self.start + _span_index - 1` (after noise removal). -/
def trainHere (c : Cfg) (or' : Oracles) (s : St) : Nat :=
  s.start + train_span_index c or' s - 1

/-- Source `models = self.fit_models(self._X, self._Y, bands=self.test_indices)`;
at this point `self.here` is already `trainHere`. -/
def trainModels (c : Cfg) (or' : Oracles) (s : St) : List Model :=
  fitModels c or' s.start (trainHere c or' s) (trainX c or' s) (trainY c or' s)
    none (some c.test_indices)

/-- Source `start_resid[i] = |_Y[b, start] - m.predict(_X[start, :])| / max(min_rmse, m.rmse)`. -/
def trainStartResid (c : Cfg) (or' : Oracles) (s : St) : List ℚ :=
  (c.test_indices.zip (trainModels c or' s)).map (fun bm =>
    |yval (trainY c or' s) bm.1 s.start - bm.2.pred ((trainX c or' s).getD s.start [])| /
      max c.min_rmse bm.2.rmse)

/-- Source `end_resid[i]` at the (new) `here`. -/
def trainEndResid (c : Cfg) (or' : Oracles) (s : St) : List ℚ :=
  (c.test_indices.zip (trainModels c or' s)).map (fun bm =>
    |yval (trainY c or' s) bm.1 (trainHere c or' s) -
        bm.2.pred ((trainX c or' s).getD (trainHere c or' s) [])| /
      max c.min_rmse bm.2.rmse)

/-- Source `self.span_time` as evaluated at line 396 of the source: `self.here` has
just been moved to `trainHere` but `self.X` is still the unmasked matrix. -/
def trainSpanTimeMasked (c : Cfg) (or' : Oracles) (s : St) : ℚ :=
  |xdate s.X (trainHere c or' s) - xdate s.X s.start|

/-- Body of `train()` past the initial guard.  The source mutates
`self._here`, `self.here`, `self.start`, `self.X`, `self.Y`,
`self.monitoring` in sequence; each branch below is the net effect of one
exit path (`return` after restoring `here`, unstable shrink, or commit). -/
def trainBody (c : Cfg) (or' : Oracles) (s : St) : St :=
  if train_span_index c or' s < c.min_obs then s
  else if trainSpanTimeMasked c or' s < ndays then
    { s with hereSaved := s.here }
  else if normGt (trainStartResid c or' s) c.threshold ||
      normGt (trainEndResid c or' s) c.threshold then
    { s with hereSaved := s.here, start := s.start + 1 }
  else
    { s with
      hereSaved := s.here, here := trainHere c or' s,
      X := trainX c or' s, Y := trainY c or' s, monitoring := true }

/-- Source `train()`. -/
def train (c : Cfg) (or' : Oracles) (s : St) : St :=
  if trainGuard c s then s else trainBody c or' s

/-! ### `update_model()` and `monitor()` -/

/-- Source `update_model()`: yearly refit of the open record, else only extend its
end date. -/
def update_model (c : Cfg) (or' : Oracles) (s : St) : St :=
  if ndays < |xdate s.X s.here - s.trained_date| then
    let models := fitModels c or' s.start s.here s.X s.Y none none
    let r0 := s.record.getD s.n_record dRec
    { s with
      models := models,
      record := s.record.set s.n_record
        { r0 with
          start := xdate s.X s.start,
          stop := xdate s.X s.here,
          coef := (List.range c.n_coef).map (fun p =>
            models.map (fun m => m.coef.getD p 0)),
          rmse := models.map Model.rmse },
      trained_date := xdate s.X s.here }
  else
    { s with
      record := s.record.set s.n_record
        { s.record.getD s.n_record dRec with stop := xdate s.X s.here } }

/-- Source `scores[i, i_b]` in `monitor()`:
`|Y[b, here+i] - models[b].predict(X[here+i, :])| / max(min_rmse, models[b].rmse)`. -/
def monitorScores (c : Cfg) (s : St) : List (List ℚ) :=
  (List.range c.consecutive).map (fun i =>
    c.test_indices.map (fun b =>
      let m := s.models.getD b dModel
      |yval s.Y b (s.here + i) - m.pred (s.X.getD (s.here + i) [])| /
        max c.min_rmse m.rmse))

/-- Source `monitor()`: break iff all `consecutive` score norms exceed `threshold`. -/
def monitor (c : Cfg) (s : St) : St :=
  let scores := monitorScores c s
  if scores.all (fun row => normGt row c.threshold) then
    { s with
      record := (s.record.set s.n_record
        { s.record.getD s.n_record dRec with brk := xdate s.X (s.here + 1) })
          ++ [record_template c],
      n_record := s.n_record + 1,
      start := s.here + 1,
      monitoring := false }
  else s

/-! ### `reset()` -/

/-- Source `reset()`: restores indices, record store and the `ran` flag (it does not
restore `X`/`Y`). -/
def reset (c : Cfg) (s : St) : St :=
  { s with
    n_record := 0,
    record := [record_template c],
    start := 0,
    here := c.min_obs,
    hereSaved := c.min_obs,
    ran := false }

/-! ### `run()` as a small-step machine

The nested loops of `run()` are encoded with a program counter:
`top` is the head of the outer `while self.running` loop, `l1` the
accumulating inner loop, `l2` the monitoring inner loop.  The unconditional
`self.here += 1` at the end of each outer iteration happens on the
`l2 → top` transition. -/

inductive Pc where
  | top
  | l1
  | l2
deriving DecidableEq

structure MSt where
  st : St
  pc : Pc

/-- One iteration of the accumulating inner loop: `self.train(); self.here += 1`. -/
def accumulateStep (c : Cfg) (or' : Oracles) (s : St) : St :=
  let s' := train c or' s
  { s' with here := s'.here + 1 }

/-- One iteration of the monitoring inner loop:
`self.update_model(); self.monitor(); self.here += 1`. -/
def monitorLoopStep (c : Cfg) (or' : Oracles) (s : St) : St :=
  let s' := monitor c (update_model c or' s)
  { s' with here := s'.here + 1 }

/-- One transition of the `run()` machine. -/
def stepOnce (c : Cfg) (or' : Oracles) (m : MSt) : MSt :=
  match m.pc with
  | .top => if running m.st then ⟨m.st, .l1⟩ else m
  | .l1 =>
      if ¬ m.st.monitoring ∧ can_monitor c m.st then
        ⟨accumulateStep c or' m.st, .l1⟩
      else ⟨m.st, .l2⟩
  | .l2 =>
      if m.st.monitoring ∧ can_monitor c m.st then
        ⟨monitorLoopStep c or' m.st, .l2⟩
      else ⟨{ m.st with here := m.st.here + 1 }, .top⟩

/-- Iterate the machine a fixed number of steps (a halted machine stays put). -/
def stepIter (c : Cfg) (or' : Oracles) : Nat → MSt → MSt
  | 0, m => m
  | k + 1, m => stepIter c or' k (stepOnce c or' m)

/-- Fuel-indexed `run()`: `some` of the final state (with `ran := True`) when
the fuel suffices, `none` otherwise. -/
def runFuel (c : Cfg) (or' : Oracles) : Nat → MSt → Option St
  | 0, _ => none
  | k + 1, m =>
      if m.pc = Pc.top ∧ ¬ running m.st then some { m.st with ran := true }
      else runFuel c or' k (stepOnce c or' m)

/-- Entry point of `run()`: `self.trained_date = 0`, start of the outer loop. -/
def runInit (s : St) : MSt := ⟨{ s with trained_date := 0 }, .top⟩

/-! ### `robust_record` (post-processing) -/

/-- Source `index = np.where((X[:,1] >= min(start, end)) & (X[:,1] <= max(end, start)))`. -/
def rirlsIndex (s : St) (r : Rec) : List Nat :=
  (List.range s.X.length).filter (fun j =>
    decide (min r.start r.stop ≤ xdate s.X j) &&
      decide (xdate s.X j ≤ max r.stop r.start))

/-- Source `np.where(coef[:, i_b] != 0)` on the (possibly already updated) copy. -/
def nonzeroRows (cur : Rec) (bpos : Nat) : List Nat :=
  (List.range cur.coef.length).filter
    (fun p => decide ((cur.coef.getD p []).getD bpos 0 ≠ 0))

/-- One band of the robust refit loop: refit on the non-zero design columns
and write the parameters back at the non-zero rows of column `bpos`. -/
def robustBand (or' : Oracles) (s : St) (index : List Nat) (bpos b : Nat)
    (cur : Rec) : Rec :=
  let nonzero := nonzeroRows cur bpos
  if nonzero = [] then cur
  else
    let pr := or'.rirls
      (index.map (fun j => nonzero.map (fun p => (s.X.getD j []).getD p 0)))
      (index.map (fun j => yval s.Y b j))
    { cur with
      coef := (List.range cur.coef.length).map (fun p =>
        let row := cur.coef.getD p []
        if p ∈ nonzero then row.set bpos (pr.1.getD (nonzero.indexOf p) 0)
        else row),
      rmse := cur.rmse.set bpos pr.2 }

/-- Robust refit of one record: fold over `enumerate(self.fit_indices)`. -/
def robustRec (c : Cfg) (or' : Oracles) (s : St) (r : Rec) : Rec :=
  c.fit_indices.enum.foldl
    (fun cur bb => robustBand or' s (rirlsIndex s r) bb.1 bb.2 cur) r

/-- Source `robust_record`: `None` if the model has not been run, else a freshly
built copy of the record store with robustly refitted models. -/
def robust_record (c : Cfg) (or' : Oracles) (s : St) : Option (List Rec) :=
  if s.ran then some (s.record.map (robustRec c or' s)) else none

/-! ### Construction (`__init__`) validation -/

inductive InitError where
  | fitIndexError        -- `IndexError('Specified fit_indices larger than Y matrix')`
  | testIndexError       -- `IndexError('Specified test_indices larger than Y matrix')`
  | emptyMaxValueError   -- Python `max([])` raises `ValueError`
  | insufficientObs      -- `Exception('Not enough observations ...')`
deriving DecidableEq

/-- Validation of `fit_indices` / `test_indices`: default to `arange(n_band)`
when absent, otherwise accept iff `max(indices) < Y.shape[0]`. -/
def validateIdx (idx : Option (List ℤ)) (nBand : Nat) (e : InitError) :
    Except InitError (List ℤ) :=
  match idx with
  | none => Except.ok ((List.range nBand).map (fun i => (i : ℤ)))
  | some l =>
      match l.maximum with
      | none => Except.error InitError.emptyMaxValueError
      | some m => if m < (nBand : ℤ) then Except.ok l else Except.error e

/-- The fallible part of `YATSM.__init__`, in source order: `fit_indices`
check, `test_indices` check, `min_obs` default `int(n_coef * 1.5)`, then the
observation-count check `X.shape[0] < min_obs + consecutive`.
Returns the resolved `(fit_indices, test_indices, min_obs)`. -/
def initCheck (nObs nBand nCoef consecutive : Nat) (min_obs : Option Nat)
    (fit_indices test_indices : Option (List ℤ)) :
    Except InitError (List ℤ × List ℤ × Nat) :=
  match validateIdx fit_indices nBand InitError.fitIndexError with
  | Except.error e => Except.error e
  | Except.ok fit =>
    match validateIdx test_indices nBand InitError.testIndexError with
    | Except.error e => Except.error e
    | Except.ok test =>
      let mo := min_obs.getD (3 * nCoef / 2)
      if nObs < mo + consecutive then Except.error InitError.insufficientObs
      else Except.ok (fit, test, mo)

/-! ### A concrete scenario (used by counterexamples)

Eight observations, dates 1000, 1200, …, 2400, design rows `[1, date]`.
Band 0 (fitted and tested) jumps from 0 to 100 at date 2000; band 1 (the
green band) has the value 500 at observation 1, which the multitemporal mask
rejects (residual 500 ≥ crit 400 under the identity residual oracle); bands
2–4 are zero.  The lasso oracle returns the zero model with RMSE 1. -/

def cfgS : Cfg :=
  { consecutive := 1, threshold := 1, min_obs := 2, min_rmse := 1,
    fit_indices := [0], test_indices := [0], n_coef := 2 }

def orS : Oracles :=
  { rlmResid := fun _ _ y => y,
    lasso := fun _ _ => ⟨[0, 0], 1, fun _ => 0⟩,
    rirls := fun _ _ => ([], 0) }

def XS : List (List ℚ) :=
  [[1, 1000], [1, 1200], [1, 1400], [1, 1600],
   [1, 1800], [1, 2000], [1, 2200], [1, 2400]]

def YS : List (List ℚ) :=
  [[0, 0, 0, 0, 0, 100, 100, 100],
   [0, 500, 0, 0, 0, 0, 0, 0],
   [0, 0, 0, 0, 0, 0, 0, 0],
   [0, 0, 0, 0, 0, 0, 0, 0],
   [0, 0, 0, 0, 0, 0, 0, 0]]

/-- The freshly constructed instance state for the scenario
(`start = 0`, `here = min_obs`). -/
def sS : St :=
  { X := XS, Y := YS, start := 0, here := 2, hereSaved := 2,
    monitoring := false, ran := false, models := [], trained_date := 0,
    record := [record_template cfgS], n_record := 0 }

def mS : MSt := runInit sS

/-! ### Invariants and termination measure for `run()` -/

/-- Data-level hypotheses: observation dates (`X[:, 1]`) are non-decreasing
and strictly positive (ordinal day counts). -/
def GoodData (s : St) : Prop :=
  (s.X.map (fun row => row.getD 1 0)).Pairwise (fun a b => a ≤ b) ∧
  (∀ row ∈ s.X, 0 < row.getD 1 0)

/-- The record-store invariant that the machine actually maintains:
every record satisfies `start ≤ end` with non-negative dates; every record
except the last carries a positive break date; `n_record` indexes the last
record; while accumulating, the open record still has the template date
fields (`start = end = 0`); while monitoring, `start ≤ here` and the open
record's start date is at most the date at index `start`. -/
def RecInv (s : St) : Prop :=
  (∀ r ∈ s.record, r.start ≤ r.stop ∧ 0 ≤ r.start) ∧
  (∀ i, i + 1 < s.record.length → 0 < (s.record.getD i dRec).brk) ∧
  s.n_record + 1 = s.record.length ∧
  (s.monitoring = false →
    (s.record.getD s.n_record dRec).start = 0 ∧
    (s.record.getD s.n_record dRec).stop = 0) ∧
  (s.monitoring = true →
    s.start ≤ s.here ∧
    (s.record.getD s.n_record dRec).start ≤ xdate s.X s.start)

def pcRank : Pc → Nat
  | .top => 2
  | .l1 => 1
  | .l2 => 0

def monRank (s : St) : Nat :=
  match s.monitoring with
  | true => 0
  | false => 1

/-- Termination measure for the `run()` machine, lexicographic in
(`|X| - start`, `|X| - here`, phase, program counter) packed into one
natural number (`n₀` bounds `|X|` for the whole run — `|X|` never grows). -/
def runMeasure (n₀ : Nat) (m : MSt) : Nat :=
  6 * ((m.st.X.length - m.st.start) * (n₀ + 1) + (m.st.X.length - m.st.here)) +
    3 * monRank m.st + pcRank m.pc

/-- Control-flow invariant for the termination proof. -/
def RunInv (n₀ : Nat) (m : MSt) : Prop :=
  m.st.X.length ≤ n₀ ∧
  (m.st.monitoring = true → m.st.start ≤ m.st.here) ∧
  (m.pc ≠ Pc.top → m.st.here < m.st.X.length)

/-! ### List lemmas -/

theorem getD_eq_of_length_le (l : List α) (d : α) (h : l.length ≤ i) :
    l.getD i d = d := by
  simp [List.getD_eq_getElem?_getD, List.getElem?_eq_none h]

theorem getD_zipWith (f : α → β → γ) (l₁ : List α) (l₂ : List β) (i : Nat)
    (d : γ) (d₁ : α) (d₂ : β) (h₁ : i < l₁.length) (h₂ : i < l₂.length) :
    (List.zipWith f l₁ l₂).getD i d = f (l₁.getD i d₁) (l₂.getD i d₂) := by
  simp [List.getD_eq_getElem?_getD, List.getElem?_zipWith,
    List.getElem?_eq_getElem h₁, List.getElem?_eq_getElem h₂]

theorem getD_map_range (f : Nat → α) (n i : Nat) (d : α) (h : i < n) :
    ((List.range n).map f).getD i d = f i := by
  simp [List.getD_eq_getElem?_getD, List.getElem?_range h]

theorem getD_map_of_lt (f : α → β) (l : List α) (i : Nat) (d : β) (d' : α)
    (h : i < l.length) :
    (l.map f).getD i d = f (l.getD i d') := by
  simp [List.getD_eq_getElem?_getD, List.getElem?_eq_getElem h]

/-! ### Claim C7: monotonicity of the multitemporal mask in `crit` -/

/-- Claim C7: For fixed inputs and oracle, the multitemporal mask retains an
observation iff its green-band residual is below `crit` and its
shortwave-infrared residual is above `-crit`; the residuals are produced by
the robust-regression oracle, which is not given `crit`, so the retained set
is monotone: every observation retained at `c₁` is retained at any
`c₂ ≥ c₁`. -/
theorem multitemp_mask_monotone_in_crit (or' : Oracles) (x : List ℚ)
    (Y : List (List ℚ)) (ny : ℚ) (c₁ c₂ : ℚ) (hc : c₁ ≤ c₂) :
    (∀ i : Nat,
      (multitemp_mask or' x Y ny c₁).getD i false = true →
      (multitemp_mask or' x Y ny c₂).getD i false = true) ∧
    (∀ (cr : ℚ) (i : Nat),
      i < (or'.rlmResid x ⌈ny⌉ (Y.getD green_band [])).length →
      i < (or'.rlmResid x ⌈ny⌉ (Y.getD swir1_band [])).length →
      ((multitemp_mask or' x Y ny cr).getD i false = true ↔
        ((or'.rlmResid x ⌈ny⌉ (Y.getD green_band [])).getD i 0 < cr ∧
          -cr < (or'.rlmResid x ⌈ny⌉ (Y.getD swir1_band [])).getD i 0))) := by
  have hchar : ∀ (cr : ℚ) (i : Nat),
      i < (or'.rlmResid x ⌈ny⌉ (Y.getD green_band [])).length →
      i < (or'.rlmResid x ⌈ny⌉ (Y.getD swir1_band [])).length →
      ((multitemp_mask or' x Y ny cr).getD i false = true ↔
        ((or'.rlmResid x ⌈ny⌉ (Y.getD green_band [])).getD i 0 < cr ∧
          -cr < (or'.rlmResid x ⌈ny⌉ (Y.getD swir1_band [])).getD i 0)) := by
    intro cr i h₁ h₂
    unfold multitemp_mask
    rw [getD_zipWith _ _ _ _ _ 0 0 h₁ h₂]
    simp
  refine ⟨?_, hchar⟩
  intro i htrue
  have hlen : i < (List.zipWith
      (fun g s => decide (g < c₁) && decide (-c₁ < s))
      (or'.rlmResid x ⌈ny⌉ (Y.getD green_band []))
      (or'.rlmResid x ⌈ny⌉ (Y.getD swir1_band []))).length := by
    by_contra hge
    rw [multitemp_mask, getD_eq_of_length_le _ _ (Nat.le_of_not_lt hge)] at htrue
    exact Bool.false_ne_true htrue
  rw [List.length_zipWith, Nat.lt_min] at hlen
  rw [hchar c₁ i hlen.1 hlen.2] at htrue
  rw [hchar c₂ i hlen.1 hlen.2]
  exact ⟨lt_of_lt_of_le htrue.1 hc, lt_of_le_of_lt (by linarith) htrue.2⟩

/-- Witness for C7 at concrete inputs. -/
theorem multitemp_mask_monotone_in_crit_witness :
    (1 : ℚ) ≤ 2 ∧
      ((multitemp_mask orS [0] [[0], [0], [0], [0], [0]] 1 1).getD 0 false = true →
        (multitemp_mask orS [0] [[0], [0], [0], [0], [0]] 1 2).getD 0 false = true) :=
  ⟨by norm_num,
    (multitemp_mask_monotone_in_crit orS [0] [[0], [0], [0], [0], [0]] 1 1 2
      (by norm_num)).1 0⟩

/-! ### Claims C8 and C10: construction-time validation -/

theorem validateIdx_ok (idx : Option (List ℤ)) (nBand : Nat) (e : InitError)
    (h : ∀ l, idx = some l → ∃ m, l.maximum = some m ∧ m < (nBand : ℤ)) :
    validateIdx idx nBand e =
      Except.ok (idx.getD ((List.range nBand).map (fun i => (i : ℤ)))) := by
  cases idx with
  | none => rfl
  | some l =>
    obtain ⟨m, hm, hlt⟩ := h l rfl
    simp [validateIdx, hm, hlt]

/-- Claim C8: With valid (or defaulted) index sets, construction fails with
`InsufficientObservations` exactly when the observation count is below
`min_obs + consecutive`, and succeeds otherwise. -/
theorem init_insufficient_observations_iff (nObs nBand nCoef consecutive : Nat)
    (min_obs : Option Nat) (fit test : Option (List ℤ))
    (hfit : ∀ l, fit = some l → ∃ m, l.maximum = some m ∧ m < (nBand : ℤ))
    (htest : ∀ l, test = some l → ∃ m, l.maximum = some m ∧ m < (nBand : ℤ)) :
    (initCheck nObs nBand nCoef consecutive min_obs fit test =
        Except.error InitError.insufficientObs ↔
      nObs < min_obs.getD (3 * nCoef / 2) + consecutive) ∧
    (min_obs.getD (3 * nCoef / 2) + consecutive ≤ nObs →
      initCheck nObs nBand nCoef consecutive min_obs fit test =
        Except.ok (fit.getD ((List.range nBand).map (fun i => (i : ℤ))),
          test.getD ((List.range nBand).map (fun i => (i : ℤ))),
          min_obs.getD (3 * nCoef / 2))) := by
  have h1 := validateIdx_ok fit nBand InitError.fitIndexError hfit
  have h2 := validateIdx_ok test nBand InitError.testIndexError htest
  unfold initCheck
  rw [h1, h2]
  dsimp only
  constructor
  · constructor
    · intro h
      by_contra hge
      rw [if_neg (by omega : ¬ nObs < min_obs.getD (3 * nCoef / 2) + consecutive)] at h
      exact Except.noConfusion h
    · intro h
      rw [if_pos h]
  · intro h
    rw [if_neg (by omega : ¬ nObs < min_obs.getD (3 * nCoef / 2) + consecutive)]

/-- Witness for C8: 10 observations, `min_obs = 4`, `consecutive = 5`
succeeds; with 8 observations it raises `InsufficientObservations`. -/
theorem init_insufficient_observations_iff_witness :
    (initCheck 10 3 4 5 (some 4) none none =
      Except.ok ([0, 1, 2], [0, 1, 2], 4)) ∧
    (initCheck 8 3 4 5 (some 4) none none =
      Except.error InitError.insufficientObs) := by
  refine ⟨?_, ?_⟩
  · have h := (init_insufficient_observations_iff 10 3 4 5 (some 4) none none
      (fun l hl => by cases hl) (fun l hl => by cases hl)).2 (by norm_num)
    simpa using h
  · exact (init_insufficient_observations_iff 8 3 4 5 (some 4) none none
      (fun l hl => by cases hl) (fun l hl => by cases hl)).1.mpr (by norm_num)

/-- Claim C10: The index sets are validated only through their maximum: a
non-empty set whose maximum is below the band count is accepted as-is, so no
invalid-index error can be produced for it — in particular negative indices
pass the construction check. -/
theorem init_index_validation_max_only (nObs nBand nCoef consecutive : Nat)
    (min_obs : Option Nat) (lf lt' : List ℤ) (mf mt : ℤ)
    (hmf : lf.maximum = some mf) (hf : mf < (nBand : ℤ))
    (hmt : lt'.maximum = some mt) (ht : mt < (nBand : ℤ)) :
    validateIdx (some lf) nBand InitError.fitIndexError = Except.ok lf ∧
    validateIdx (some lt') nBand InitError.testIndexError = Except.ok lt' ∧
    initCheck nObs nBand nCoef consecutive min_obs (some lf) (some lt') ≠
      Except.error InitError.fitIndexError ∧
    initCheck nObs nBand nCoef consecutive min_obs (some lf) (some lt') ≠
      Except.error InitError.testIndexError := by
  have h1 : validateIdx (some lf) nBand InitError.fitIndexError = Except.ok lf := by
    simp [validateIdx, hmf, hf]
  have h2 : validateIdx (some lt') nBand InitError.testIndexError = Except.ok lt' := by
    simp [validateIdx, hmt, ht]
  refine ⟨h1, h2, ?_, ?_⟩ <;>
    · unfold initCheck
      rw [h1, h2]
      dsimp only
      split <;> simp

/-- Witness for C10: the fit set `[-5, 0]` (containing a negative index) and
test set `[0]` are accepted against a single-band response. -/
theorem init_index_validation_max_only_witness :
    validateIdx (some [-5, 0]) 1 InitError.fitIndexError = Except.ok [-5, 0] ∧
    initCheck 10 1 2 1 (some 2) (some [-5, 0]) (some [0]) ≠
      Except.error InitError.fitIndexError := by
  have h := init_index_validation_max_only 10 1 2 1 (some 2) [-5, 0] [0] 0 0
    (by decide) (by decide) (by decide) (by decide)
  exact ⟨h.1, h.2.2.1⟩

/-! ### Claim C5: `min_rmse` floors every normalized-residual denominator -/

/-- Claim C5: Every normalized residual of the training stability test
(`start_resid` / `end_resid`) and of `monitor()` has denominator
`max(min_rmse, model_rmse)`; therefore the score is at most the raw residual
divided by `min_rmse` whenever `min_rmse > 0`.  When `min_rmse` is the
default sentinel `sys.float_info.min = 2^(-1022)`, the sentinel never binds:
for every RMSE value a float `math.sqrt` can produce (zero, or at least
`2^(-1022)`, since any smaller positive square underflows to zero) that is
positive, the denominator is exactly the model RMSE. -/
theorem min_rmse_floors_normalized_residuals (c : Cfg) (or' : Oracles)
    (s : St) (i bpos : Nat) (hi : i < c.consecutive)
    (hb : bpos < c.test_indices.length) :
    (((monitorScores c s).getD i []).getD bpos 0 =
        |yval s.Y (c.test_indices.getD bpos 0) (s.here + i) -
            (s.models.getD (c.test_indices.getD bpos 0) dModel).pred
              (s.X.getD (s.here + i) [])| /
          max c.min_rmse
            (s.models.getD (c.test_indices.getD bpos 0) dModel).rmse) ∧
    ((trainStartResid c or' s).getD bpos 0 =
        |yval (trainY c or' s) (c.test_indices.getD bpos 0) s.start -
            ((trainModels c or' s).getD bpos dModel).pred
              ((trainX c or' s).getD s.start [])| /
          max c.min_rmse ((trainModels c or' s).getD bpos dModel).rmse) ∧
    ((trainEndResid c or' s).getD bpos 0 =
        |yval (trainY c or' s) (c.test_indices.getD bpos 0)
              (trainHere c or' s) -
            ((trainModels c or' s).getD bpos dModel).pred
              ((trainX c or' s).getD (trainHere c or' s) [])| /
          max c.min_rmse ((trainModels c or' s).getD bpos dModel).rmse) ∧
    (0 < c.min_rmse →
      ((monitorScores c s).getD i []).getD bpos 0 ≤
        |yval s.Y (c.test_indices.getD bpos 0) (s.here + i) -
            (s.models.getD (c.test_indices.getD bpos 0) dModel).pred
              (s.X.getD (s.here + i) [])| / c.min_rmse) ∧
    (∀ r : ℚ, c.min_rmse = default_min_rmse → 0 < r →
      (r = 0 ∨ default_min_rmse ≤ r) → max c.min_rmse r = r) := by
  have hmodels : (trainModels c or' s).length = c.test_indices.length := by
    simp [trainModels, fitModels]
  have hmon : ((monitorScores c s).getD i []).getD bpos 0 =
      |yval s.Y (c.test_indices.getD bpos 0) (s.here + i) -
          (s.models.getD (c.test_indices.getD bpos 0) dModel).pred
            (s.X.getD (s.here + i) [])| /
        max c.min_rmse
          (s.models.getD (c.test_indices.getD bpos 0) dModel).rmse := by
    unfold monitorScores
    rw [getD_map_range _ _ _ _ hi, getD_map_of_lt _ _ _ _ 0 hb]
  have hzip : bpos < (c.test_indices.zip (trainModels c or' s)).length := by
    rw [List.length_zip, hmodels]
    omega
  have hzget : (c.test_indices.zip (trainModels c or' s)).getD bpos (0, dModel) =
      (c.test_indices.getD bpos 0, (trainModels c or' s).getD bpos dModel) := by
    unfold List.zip
    rw [getD_zipWith _ _ _ _ _ 0 dModel hb (by omega)]
  refine ⟨hmon, ?_, ?_, ?_, ?_⟩
  · unfold trainStartResid
    rw [getD_map_of_lt _ _ _ _ (0, dModel) hzip, hzget]
  · unfold trainEndResid
    rw [getD_map_of_lt _ _ _ _ (0, dModel) hzip, hzget]
  · intro hpos
    rw [hmon]
    exact div_le_div_of_nonneg_left (abs_nonneg _) hpos (le_max_left _ _)
  · intro r hdef hrpos hr
    rcases hr with hr | hr
    · exact absurd hr (ne_of_gt hrpos)
    · rw [hdef]
      exact max_eq_right hr

/-- Witness for C5 at a concrete configuration and state. -/
theorem min_rmse_floors_normalized_residuals_witness :
    max default_min_rmse (1 : ℚ) = 1 :=
  (min_rmse_floors_normalized_residuals
      { consecutive := 1, threshold := 1, min_obs := 1,
        min_rmse := default_min_rmse, fit_indices := [0],
        test_indices := [0], n_coef := 1 }
      orS sS 0 0 (by decide) (by decide)).2.2.2.2 1 rfl (by norm_num)
    (Or.inr (by norm_num [default_min_rmse]))

/-! ### Claim C1: `monitor()` breaks iff all trailing norms exceed `threshold` -/

theorem sumSq_nonneg (l : List ℚ) : 0 ≤ sumSq l := by
  unfold sumSq
  apply List.sum_nonneg
  intro x hx
  obtain ⟨q, _, rfl⟩ := List.mem_map.mp hx
  exact mul_self_nonneg q

/-- Source `normGt v t` decides the real-valued comparison
`np.linalg.norm v > t`. -/
theorem normGt_iff_sqrt (l : List ℚ) (t : ℚ) :
    normGt l t = true ↔ (t : ℝ) < Real.sqrt ((sumSq l : ℚ) : ℝ) := by
  unfold normGt
  rcases lt_or_le t 0 with ht | ht
  · have h1 : decide (t < 0) = true := decide_eq_true ht
    rw [h1, Bool.true_or]
    constructor
    · intro _
      calc (t : ℝ) < 0 := by exact_mod_cast ht
        _ ≤ Real.sqrt ((sumSq l : ℚ) : ℝ) := Real.sqrt_nonneg _
    · intro _
      rfl
  · have h1 : decide (t < 0) = false := decide_eq_false (not_lt.mpr ht)
    rw [h1, Bool.false_or, decide_eq_true_iff]
    rw [Real.lt_sqrt (by exact_mod_cast ht : (0 : ℝ) ≤ (t : ℝ))]
    constructor
    · intro h
      rw [pow_two]
      exact_mod_cast h
    · intro h
      rw [pow_two] at h
      exact_mod_cast h

theorem monitor_all_iff (c : Cfg) (s : St) :
    ((monitorScores c s).all (fun row => normGt row c.threshold) = true) ↔
      ∀ i, i < c.consecutive →
        normGt ((monitorScores c s).getD i []) c.threshold = true := by
  rw [List.all_eq_true]
  constructor
  · intro h i hi
    have hmem : ((monitorScores c s).getD i []) ∈ monitorScores c s := by
      unfold monitorScores
      rw [getD_map_range _ _ _ _ hi]
      exact List.mem_map.mpr ⟨i, List.mem_range.mpr hi, rfl⟩
    exact h _ hmem
  · intro h x hx
    unfold monitorScores at hx
    obtain ⟨i, hi, rfl⟩ := List.mem_map.mp hx
    have hi' := List.mem_range.mp hi
    have := h i hi'
    rw [show ((monitorScores c s).getD i []) =
        (fun i => c.test_indices.map (fun b =>
          let m := s.models.getD b dModel
          |yval s.Y b (s.here + i) - m.pred (s.X.getD (s.here + i) [])| /
            max c.min_rmse m.rmse)) i from by
      unfold monitorScores
      rw [getD_map_range _ _ _ _ hi']] at this
    exact this

/-- Claim C1: `monitor()` declares a break iff every one of the `consecutive`
per-observation Euclidean norms of the normalized residuals across the
tested bands (observations `here, here+1, …, here+consecutive-1`) strictly
exceeds `threshold`.  On a break it sets the break field of the open record
to the date of observation `here + 1`, appends a fresh template record,
resets `start` to `here + 1` and leaves monitoring; if even one trailing
norm is at or below `threshold`, the state — record store, `start`,
`monitoring` — is returned unchanged. -/
theorem monitor_breaks_iff_all_norms_exceed (c : Cfg) (s : St) :
    ((∀ i, i < c.consecutive →
        (c.threshold : ℝ) <
          Real.sqrt ((sumSq ((monitorScores c s).getD i []) : ℚ) : ℝ)) →
      monitor c s = { s with
        record := (s.record.set s.n_record
          { s.record.getD s.n_record dRec with brk := xdate s.X (s.here + 1) })
            ++ [record_template c],
        n_record := s.n_record + 1,
        start := s.here + 1,
        monitoring := false }) ∧
    ((∃ i, i < c.consecutive ∧
        Real.sqrt ((sumSq ((monitorScores c s).getD i []) : ℚ) : ℝ) ≤
          (c.threshold : ℝ)) →
      monitor c s = s) := by
  constructor
  · intro h
    have hcond : (monitorScores c s).all (fun row => normGt row c.threshold) = true :=
      (monitor_all_iff c s).mpr (fun i hi => (normGt_iff_sqrt _ _).mpr (h i hi))
    simp only [monitor, hcond, if_true]
  · rintro ⟨i, hi, hle⟩
    have hfalse : normGt ((monitorScores c s).getD i []) c.threshold = false := by
      rw [← Bool.not_eq_true, normGt_iff_sqrt]
      exact not_lt.mpr hle
    have hcond : (monitorScores c s).all (fun row => normGt row c.threshold) = false := by
      rw [← Bool.not_eq_true]
      intro hall
      rw [(monitor_all_iff c s).mp hall i hi] at hfalse
      simp at hfalse
    simp only [monitor, hcond, Bool.false_eq_true, if_false]

/-- Witness for C1: in the scenario state with the zero model, the
score of the single monitored observation is 0 ≤ threshold, so `monitor()`
leaves the state unchanged. -/
theorem monitor_breaks_iff_all_norms_exceed_witness :
    monitor cfgS { sS with models := [⟨[0, 0], 1, fun _ => 0⟩] } =
      { sS with models := [⟨[0, 0], 1, fun _ => 0⟩] } := by
  apply (monitor_breaks_iff_all_norms_exceed cfgS
    { sS with models := [⟨[0, 0], 1, fun _ => 0⟩] }).2
  refine ⟨0, by decide, ?_⟩
  have h0 : sumSq ((monitorScores cfgS
      { sS with models := [⟨[0, 0], 1, fun _ => 0⟩] }).getD 0 []) = 0 := by
    decide
  rw [h0]
  have ht : ((cfgS.threshold : ℚ) : ℝ) = 1 := by
    norm_num [cfgS]
  rw [ht]
  simp [Real.sqrt_zero]

/-! ### Claim C4: the `train()` entry guard -/

/-- Claim C4: `train()` proceeds past its entry guard iff the current window
spans at least 365.25 days and contains at least `n_coef` observations
(`span_index = here - start`, the observation count of `[start, here)`);
otherwise it is a no-op (`train` returns the state unchanged) and the
accumulating loop simply advances the cursor by one.  Dates are ordinal day
counts, so the time span is an integer and "> 365.25" and "≥ 365.25"
coincide (the hypothesis `hz`). -/
theorem train_guard_iff_span_and_count (c : Cfg) (or' : Oracles) (s : St)
    (hz : ∃ z : ℤ, span_time s = (z : ℚ)) :
    (¬ trainGuard c s ↔ (ndays ≤ span_time s ∧ c.n_coef ≤ span_index s)) ∧
    (trainGuard c s →
      train c or' s = s ∧
      accumulateStep c or' s = { s with here := s.here + 1 }) := by
  obtain ⟨z, hzeq⟩ := hz
  constructor
  · unfold trainGuard
    push_neg
    constructor
    · rintro ⟨h1, h2⟩
      exact ⟨le_of_lt h1, h2⟩
    · rintro ⟨h1, h2⟩
      refine ⟨?_, h2⟩
      rcases lt_or_eq_of_le h1 with h | h
      · exact h
      · exfalso
        have h4 : (4 : ℚ) * ndays = 1461 := by norm_num [ndays]
        rw [h, hzeq] at h4
        have h5 : (4 * z : ℤ) = 1461 := by exact_mod_cast h4
        omega
  · intro hg
    refine ⟨?_, ?_⟩
    · unfold train
      rw [if_pos hg]
    · unfold accumulateStep train
      rw [if_pos hg]

/-- Witness for C4: in the scenario state with cursor 1 the span is 200 days
≤ 365.25, so `train()` is a no-op. -/
theorem train_guard_iff_span_and_count_witness :
    train cfgS orS { sS with here := 1 } = { sS with here := 1 } :=
  ((train_guard_iff_span_and_count cfgS orS { sS with here := 1 }
    ⟨200, by decide⟩).2 (by decide)).1

/-! ### Claim C9: committing the mask replaces `X`/`Y`; `reset` does not
restore them -/

/-- Claim C9: When `train()` judges a window stable and switches to
monitoring, the instance data is permanently replaced by the masked subsets
(`trainX` / `trainY` are `maskFilter` applied to `X` resp. every band row of
`Y`); `monitor()` and `update_model()` never write `X`/`Y`; and `reset()`
restores the cursor, record store and `ran` flag but leaves `X`/`Y` at their
current (possibly reduced) values. -/
theorem train_commit_replaces_data_and_reset_keeps_it (c : Cfg)
    (or' : Oracles) (s : St) :
    (s.monitoring = false → (train c or' s).monitoring = true →
      (train c or' s).X = trainX c or' s ∧
      (train c or' s).Y = trainY c or' s ∧
      trainX c or' s = maskFilter s.X (trainMask c or' s) ∧
      trainY c or' s = s.Y.map (fun row => maskFilter row (trainMask c or' s))) ∧
    (monitor c s).X = s.X ∧ (monitor c s).Y = s.Y ∧
    (update_model c or' s).X = s.X ∧ (update_model c or' s).Y = s.Y ∧
    (reset c s).X = s.X ∧ (reset c s).Y = s.Y ∧
    (reset c s).start = 0 ∧ (reset c s).here = c.min_obs ∧
    (reset c s).record = [record_template c] ∧ (reset c s).ran = false := by
  refine ⟨?_, ?_, ?_, ?_, ?_, rfl, rfl, rfl, rfl, rfl, rfl⟩
  · intro hmon hmon'
    unfold train trainBody at hmon' ⊢
    split_ifs at hmon' ⊢ with h1 h2 h3 h4
    · rw [hmon] at hmon'
      exact absurd hmon' (by simp)
    · rw [hmon] at hmon'
      exact absurd hmon' (by simp)
    · rw [show ({ s with hereSaved := s.here } : St).monitoring =
          s.monitoring from rfl, hmon] at hmon'
      exact absurd hmon' (by simp)
    · rw [show ({ s with hereSaved := s.here, start := s.start + 1 } :
          St).monitoring = s.monitoring from rfl, hmon] at hmon'
      exact absurd hmon' (by simp)
    · exact ⟨rfl, rfl, rfl, rfl⟩
  · unfold monitor
    dsimp only
    split <;> rfl
  · unfold monitor
    dsimp only
    split <;> rfl
  · unfold update_model
    split <;> rfl
  · unfold update_model
    split <;> rfl

/-- Witness for C9: the scenario commit at machine step 3 replaces `X` by
its masked subset. -/
theorem train_commit_replaces_data_witness :
    (train cfgS orS (stepIter cfgS orS 3 mS).st).X =
      trainX cfgS orS (stepIter cfgS orS 3 mS).st :=
  ((train_commit_replaces_data_and_reset_keeps_it cfgS orS
    (stepIter cfgS orS 3 mS).st).1 (by decide) (by decide)).1

/-! ### Claim C6: `robust_record` never creates new non-zero coefficients -/

theorem getD_set_ne (l : List α) (i j : Nat) (v d : α) (h : i ≠ j) :
    (l.set i v).getD j d = l.getD j d := by
  simp [List.getD_eq_getElem?_getD, List.getElem?_set_ne h]

theorem foldl_preserves (P : β → Prop) (f : β → α → β) :
    ∀ (l : List α) (init : β), P init → (∀ b a, P b → P (f b a)) →
      P (l.foldl f init)
  | [], _, h, _ => h
  | a :: l, init, h, hstep =>
      foldl_preserves P f l (f init a) (hstep _ _ h) hstep

theorem getD_getD_zero (L : List (List ℚ)) (p j : Nat) (h : L.length ≤ p) :
    (L.getD p []).getD j 0 = 0 := by
  rw [getD_eq_of_length_le _ _ h]
  rfl

theorem robustBand_coef_other_col (or' : Oracles) (s : St) (index : List Nat)
    (bpos b : Nat) (cur : Rec) (p j : Nat) (hj : j ≠ bpos) :
    ((robustBand or' s index bpos b cur).coef.getD p []).getD j 0 =
      (cur.coef.getD p []).getD j 0 := by
  unfold robustBand
  dsimp only
  split
  · rfl
  · dsimp only
    by_cases hp : p < cur.coef.length
    · rw [getD_map_range _ _ _ _ hp]
      split
      · exact getD_set_ne _ _ _ _ _ (Ne.symm hj)
      · rfl
    · rw [getD_getD_zero _ _ _ (by simpa using Nat.le_of_not_lt hp),
        getD_getD_zero _ _ _ (Nat.le_of_not_lt hp)]

theorem robustBand_coef_zero_col (or' : Oracles) (s : St) (index : List Nat)
    (bpos b : Nat) (cur : Rec) (p : Nat)
    (hz : (cur.coef.getD p []).getD bpos 0 = 0) :
    ((robustBand or' s index bpos b cur).coef.getD p []).getD bpos 0 = 0 := by
  unfold robustBand
  dsimp only
  split
  · exact hz
  · dsimp only
    by_cases hp : p < cur.coef.length
    · rw [getD_map_range _ _ _ _ hp]
      have hnp : p ∉ nonzeroRows cur bpos := by
        simp only [nonzeroRows, List.mem_filter, List.mem_range,
          decide_eq_true_iff]
        rintro ⟨_, hne⟩
        exact hne hz
      rw [if_neg hnp]
      exact hz
    · exact getD_getD_zero _ _ _ (by simpa using Nat.le_of_not_lt hp)

theorem robustRec_preserves_zero (c : Cfg) (or' : Oracles) (s : St) (r : Rec)
    (p j : Nat) (hz : (r.coef.getD p []).getD j 0 = 0) :
    ((robustRec c or' s r).coef.getD p []).getD j 0 = 0 := by
  unfold robustRec
  refine foldl_preserves
    (fun cur => ∀ p j, ((r.coef.getD p []).getD j 0 = 0) →
      ((cur.coef.getD p []).getD j 0 = 0))
    _ c.fit_indices.enum r (fun _ _ h => h) ?_ p j hz
  intro cur bb hP p' j' hz0
  by_cases hj : j' = bb.1
  · subst hj
    exact robustBand_coef_zero_col or' s (rirlsIndex s r) bb.1 bb.2 cur p'
      (hP p' bb.1 hz0)
  · rw [robustBand_coef_other_col or' s (rirlsIndex s r) bb.1 bb.2 cur p' j' hj]
    exact hP p' j' hz0

/-- Claim C6: `robust_record` returns `None` when the model has not been run;
otherwise it returns a freshly built list of records (the input state is not
modified — the embedding is a pure function of `s`) in which, for every
record, band column and coefficient row, a coefficient that was zero in the
original record is still zero: the robust refit writes only at the rows
`np.where(coef[:, i_b] != 0)`. -/
theorem robust_record_zero_support (c : Cfg) (or' : Oracles) (s : St) :
    (s.ran = false → robust_record c or' s = none) ∧
    (∀ l, robust_record c or' s = some l →
      l.length = s.record.length ∧
      ∀ ri p j, (((s.record.getD ri dRec).coef.getD p []).getD j 0 = 0) →
        ((l.getD ri dRec).coef.getD p []).getD j 0 = 0) := by
  constructor
  · intro hran
    unfold robust_record
    rw [hran]
    rfl
  · intro l hl
    unfold robust_record at hl
    split_ifs at hl with hr
    · injection hl with hl
      subst hl
      refine ⟨by simp, ?_⟩
      intro ri p j hz
      by_cases hri : ri < s.record.length
      · rw [getD_map_of_lt _ _ _ _ dRec hri]
        exact robustRec_preserves_zero c or' s _ p j hz
      · have hd : (s.record.map (robustRec c or' s)).getD ri dRec = dRec :=
          getD_eq_of_length_le _ _ (by simpa using Nat.le_of_not_lt hri)
        rw [hd]
        rfl

/-- Witness for C6: the scenario state has not been run, so `robust_record`
returns `None`. -/
theorem robust_record_zero_support_witness :
    robust_record cfgS orS sS = none :=
  (robust_record_zero_support cfgS orS sS).1 rfl

/-! ### Counting lemmas for the training mask -/

theorem maskFilter_sublist : ∀ (l : List α) (m : List Bool),
    List.Sublist (maskFilter l m) l
  | [], _ => by simp [maskFilter]
  | _ :: _, [] => by simp [maskFilter]
  | a :: l, b :: m => by
    unfold maskFilter
    split
    · exact List.Sublist.cons₂ a (maskFilter_sublist l m)
    · exact List.Sublist.cons a (maskFilter_sublist l m)

theorem maskFilter_map (f : α → β) : ∀ (l : List α) (m : List Bool),
    (maskFilter l m).map f = maskFilter (l.map f) m
  | [], _ => by simp [maskFilter]
  | _ :: _, [] => by simp [maskFilter]
  | a :: l, b :: m => by
    unfold maskFilter
    cases b <;> simp [maskFilter_map f l m]

theorem maskFilter_length : ∀ (l : List α) (m : List Bool),
    m.length = l.length → (maskFilter l m).length = countTrue m
  | [], [], _ => rfl
  | a :: l, b :: m, h => by
    unfold maskFilter countTrue
    cases b
    · simpa [countTrue] using maskFilter_length l m (by simpa using h)
    · simpa [countTrue, List.count_cons] using maskFilter_length l m (by simpa using h)

theorem countTrue_all_true (l : List Bool) (h : ∀ b ∈ l, b = true) :
    countTrue l = l.length := by
  unfold countTrue
  rw [List.count_eq_length]
  intro b hb
  exact (h b hb).symm

theorem all_true_of_countTrue_eq (l : List Bool)
    (h : countTrue l = l.length) : ∀ b ∈ l, b = true := by
  intro b hb
  exact (List.count_eq_length.mp h b hb).symm

theorem countTrue_le_length (l : List Bool) : countTrue l ≤ l.length :=
  List.count_le_length _ _

theorem countTrue_take_le (l : List Bool) (k : Nat) :
    countTrue (l.take k) ≤ countTrue l :=
  (List.take_sublist k l).count_le _

theorem trainMask_length (c : Cfg) (or' : Oracles) (s : St) :
    (trainMask c or' s).length = s.X.length := by
  simp [trainMask]

/-- Exit-path analysis of `train()`. -/
theorem train_cases (c : Cfg) (or' : Oracles) (s : St) :
    train c or' s = s ∨
    train c or' s = { s with hereSaved := s.here } ∨
    train c or' s = { s with hereSaved := s.here, start := s.start + 1 } ∨
    (¬ trainGuard c s ∧ c.min_obs ≤ train_span_index c or' s ∧
      train c or' s = { s with
        hereSaved := s.here, here := trainHere c or' s,
        X := trainX c or' s, Y := trainY c or' s, monitoring := true }) := by
  unfold train trainBody
  split_ifs with h1 h2 h3 h4
  · exact Or.inl rfl
  · exact Or.inl rfl
  · exact Or.inr (Or.inl rfl)
  · exact Or.inr (Or.inr (Or.inl rfl))
  · exact Or.inr (Or.inr (Or.inr ⟨h1, Nat.le_of_not_lt h2, rfl⟩))

/-- Size bookkeeping of a committed training step: the masked data is no
larger than the original; the new cursor `start + _span_index` is at least
two below the masked length; and if nothing was masked away, the new cursor
equals the old one. -/
theorem commit_bounds (c : Cfg) (or' : Oracles) (s : St)
    (hcm : can_monitor c s) (hguard : ¬ trainGuard c s)
    (hcoef : 1 ≤ c.n_coef) (hmin : 1 ≤ c.min_obs)
    (htsi : c.min_obs ≤ train_span_index c or' s) :
    (trainX c or' s).length ≤ s.X.length ∧
    s.start + train_span_index c or' s + 2 ≤ (trainX c or' s).length ∧
    ((trainX c or' s).length = s.X.length →
      train_span_index c or' s = s.here - s.start) := by
  have hsh : s.start + 1 ≤ s.here := by
    have h2 : c.n_coef ≤ span_index s := by
      unfold trainGuard at hguard
      push_neg at hguard
      exact hguard.2
    unfold span_index at h2
    omega
  have hhn : s.here + c.consecutive + 1 < s.X.length := hcm
  set n := s.X.length with hn
  set a := s.start with ha
  set L := s.here + c.consecutive - s.start with hL
  have haL : a + L = s.here + c.consecutive := by omega
  have haLn : a + L < n := by omega
  have hXlen : (trainX c or' s).length = countTrue (trainMask c or' s) := by
    unfold trainX
    exact maskFilter_length _ _ (trainMask_length c or' s)
  have hmlen : (trainMask c or' s).length = n := trainMask_length c or' s
  -- decompose the mask count into the three index regions
  have hsplit : List.range' 0 a ++
      (List.range' a L ++ List.range' (a + L) (n - (a + L))) =
      List.range n := by
    have h1 : List.range' a L ++ List.range' (a + L) (n - (a + L)) =
        List.range' a (n - a) := by
      rw [List.range'_append_1]
      congr 1
      omega
    rw [h1]
    have h2 := List.range'_append_1 0 a (n - a)
    rw [List.range_eq_range']
    rw [show (0 : Nat) + a = a from Nat.zero_add a] at h2
    rw [h2]
    congr 1
    omega
  have hmask : trainMask c or' s = (List.range n).map (fun i =>
      if a ≤ i ∧ i < s.here + c.consecutive then
        (trainMaskVals c or' s).getD (i - a) true
      else true) := rfl
  have hcount : countTrue (trainMask c or' s) =
      countTrue ((List.range' 0 a).map (fun i =>
        if a ≤ i ∧ i < s.here + c.consecutive then
          (trainMaskVals c or' s).getD (i - a) true
        else true)) +
      countTrue ((List.range' a L).map (fun i =>
        if a ≤ i ∧ i < s.here + c.consecutive then
          (trainMaskVals c or' s).getD (i - a) true
        else true)) +
      countTrue ((List.range' (a + L) (n - (a + L))).map (fun i =>
        if a ≤ i ∧ i < s.here + c.consecutive then
          (trainMaskVals c or' s).getD (i - a) true
        else true)) := by
    rw [hmask, ← hsplit, List.map_append, List.map_append]
    unfold countTrue
    rw [List.count_append, List.count_append]
    omega
  have hpart1 : countTrue ((List.range' 0 a).map (fun i =>
      if a ≤ i ∧ i < s.here + c.consecutive then
        (trainMaskVals c or' s).getD (i - a) true
      else true)) = a := by
    rw [show ((List.range' 0 a).map (fun i =>
        if a ≤ i ∧ i < s.here + c.consecutive then
          (trainMaskVals c or' s).getD (i - a) true
        else true)) = (List.range' 0 a).map (fun _ => true) from
      List.map_congr_left (by
        intro i hi
        obtain ⟨j, hj, rfl⟩ := List.mem_range'.mp hi
        rw [if_neg]
        omega)]
    rw [countTrue_all_true _ (by simp), List.length_map, List.length_range']
  have hpart3 : countTrue ((List.range' (a + L) (n - (a + L))).map (fun i =>
      if a ≤ i ∧ i < s.here + c.consecutive then
        (trainMaskVals c or' s).getD (i - a) true
      else true)) = n - (a + L) := by
    rw [show ((List.range' (a + L) (n - (a + L))).map (fun i =>
        if a ≤ i ∧ i < s.here + c.consecutive then
          (trainMaskVals c or' s).getD (i - a) true
        else true)) = (List.range' (a + L) (n - (a + L))).map (fun _ => true) from
      List.map_congr_left (by
        intro i hi
        obtain ⟨j, hj, rfl⟩ := List.mem_range'.mp hi
        rw [if_neg]
        omega)]
    rw [countTrue_all_true _ (by simp), List.length_map, List.length_range']
  -- the middle region is exactly the per-index mask list used by
  -- `train_span_index`
  have hidx : trainIdx c s = List.range' a L := rfl
  have hmid : (trainIdx c s).map (fun i => (trainMask c or' s).getD i true) =
      (List.range' a L).map (fun i =>
        if a ≤ i ∧ i < s.here + c.consecutive then
          (trainMaskVals c or' s).getD (i - a) true
        else true) := by
    rw [hidx]
    apply List.map_congr_left
    intro i hi
    obtain ⟨j, hj, rfl⟩ := List.mem_range'.mp hi
    rw [hmask]
    rw [getD_map_range _ _ _ _ (by omega)]
  have htsi_le : train_span_index c or' s ≤
      countTrue ((List.range' a L).map (fun i =>
        if a ≤ i ∧ i < s.here + c.consecutive then
          (trainMaskVals c or' s).getD (i - a) true
        else true)) := by
    rw [← hmid]
    unfold train_span_index pyDropLast
    split
    · exact Nat.zero_le _
    · exact countTrue_take_le _ _
  refine ⟨?_, ?_, ?_⟩
  · rw [hXlen, ← hmlen]
    exact countTrue_le_length _
  · rw [hXlen, hcount, hpart1, hpart3]
    have h2 : 2 ≤ n - (a + L) := by omega
    omega
  · intro heq
    rw [hXlen, ← hmlen] at heq
    have hall := all_true_of_countTrue_eq _ heq
    -- every mask entry is true, hence the middle list is all-true
    have hmid_all : ∀ b ∈ (trainIdx c s).map
        (fun i => (trainMask c or' s).getD i true), b = true := by
      intro b hb
      obtain ⟨i, hi, rfl⟩ := List.mem_map.mp hb
      rw [hidx] at hi
      obtain ⟨j, hj, rfl⟩ := List.mem_range'.mp hi
      have hin : a + 1 * j < n := by omega
      have : (trainMask c or' s).getD (a + 1 * j) true ∈ trainMask c or' s := by
        rw [List.getD_eq_getElem _ _ (by omega : a + 1 * j < (trainMask c or' s).length)]
        exact List.getElem_mem _
      exact hall _ this
    have hcons : c.consecutive ≠ 0 := by
      intro h0
      have : train_span_index c or' s = 0 := by
        unfold train_span_index pyDropLast
        rw [if_pos h0]
        rfl
      omega
    unfold train_span_index pyDropLast
    rw [if_neg hcons]
    rw [countTrue_all_true _ (fun b hb =>
      hmid_all b ((List.take_sublist _ _).mem hb))]
    rw [List.length_take, List.length_map]
    rw [hidx, List.length_range']
    omega

/-! ### Claim C2: termination of `run()` -/

theorem update_model_fields (c : Cfg) (or' : Oracles) (s : St) :
    (update_model c or' s).X = s.X ∧ (update_model c or' s).Y = s.Y ∧
    (update_model c or' s).start = s.start ∧
    (update_model c or' s).here = s.here ∧
    (update_model c or' s).monitoring = s.monitoring ∧
    (update_model c or' s).n_record = s.n_record ∧
    (update_model c or' s).record.length = s.record.length := by
  unfold update_model
  split <;> simp

/-- Exit-path analysis of `monitor()`. -/
theorem monitor_cases (c : Cfg) (s : St) :
    monitor c s = s ∨
    monitor c s = { s with
      record := (s.record.set s.n_record
        { s.record.getD s.n_record dRec with brk := xdate s.X (s.here + 1) })
          ++ [record_template c],
      n_record := s.n_record + 1,
      start := s.here + 1,
      monitoring := false } := by
  unfold monitor
  dsimp only
  split
  · exact Or.inr rfl
  · exact Or.inl rfl

theorem mul_step (A B K : Nat) (h : A + 1 ≤ B) : A * K + K ≤ B * K := by
  calc A * K + K = (A + 1) * K := by rw [Nat.add_mul, Nat.one_mul]
    _ ≤ B * K := Nat.mul_le_mul_right K h

/-- Every non-halted machine step preserves the control-flow invariant and
strictly decreases the termination measure. -/
theorem stepOnce_decreases (n₀ : Nat) (c : Cfg) (or' : Oracles)
    (hmin : 1 ≤ c.min_obs) (hcoef : 1 ≤ c.n_coef) (m : MSt)
    (hinv : RunInv n₀ m) (hrun : ¬ (m.pc = Pc.top ∧ ¬ running m.st)) :
    RunInv n₀ (stepOnce c or' m) ∧
      runMeasure n₀ (stepOnce c or' m) < runMeasure n₀ m := by
  obtain ⟨s, pc⟩ := m
  obtain ⟨hn₀, hmono, hlt⟩ := hinv
  simp only at hn₀ hmono hlt hrun
  cases pc with
  | top =>
      have hr : running s := by
        by_contra hnr
        exact hrun ⟨rfl, hnr⟩
      have hstep : stepOnce c or' ⟨s, Pc.top⟩ = ⟨s, Pc.l1⟩ := by
        simp only [stepOnce]
        rw [if_pos hr]
      rw [hstep]
      refine ⟨⟨hn₀, hmono, fun _ => hr⟩, ?_⟩
      simp only [runMeasure, pcRank]
      omega
  | l1 =>
      have hlt' : s.here < s.X.length := hlt (by simp)
      by_cases hg : ¬ s.monitoring ∧ can_monitor c s
      · have hstep : stepOnce c or' ⟨s, Pc.l1⟩ =
            ⟨accumulateStep c or' s, Pc.l1⟩ := by
          simp only [stepOnce]
          rw [if_pos hg]
        have hcm : can_monitor c s := hg.2
        have hmon_false : s.monitoring = false := Bool.eq_false_iff.mpr hg.1
        have hhn : s.here + c.consecutive + 1 < s.X.length := hcm
        rw [hstep]
        rcases train_cases c or' s with hc | hc | hc | ⟨hng, htsi, hc⟩
        · unfold accumulateStep
          rw [hc]
          refine ⟨⟨hn₀, ?_, fun _ => ?_⟩, ?_⟩
          · intro hmt
            simp only at hmt
            rw [hmon_false] at hmt
            exact absurd hmt (by simp)
          · simp only
            omega
          · simp only [runMeasure, pcRank, monRank, hmon_false]
            omega
        · unfold accumulateStep
          rw [hc]
          refine ⟨⟨hn₀, ?_, fun _ => ?_⟩, ?_⟩
          · intro hmt
            simp only at hmt
            rw [hmon_false] at hmt
            exact absurd hmt (by simp)
          · simp only
            omega
          · simp only [runMeasure, pcRank, monRank, hmon_false]
            omega
        · unfold accumulateStep
          rw [hc]
          refine ⟨⟨hn₀, ?_, fun _ => ?_⟩, ?_⟩
          · intro hmt
            simp only at hmt
            rw [hmon_false] at hmt
            exact absurd hmt (by simp)
          · simp only
            omega
          · simp only [runMeasure, pcRank, monRank, hmon_false]
            rcases Nat.lt_or_ge s.start s.X.length with hsn | hsn
            · have hK := mul_step (s.X.length - (s.start + 1))
                (s.X.length - s.start) (n₀ + 1) (by omega)
              omega
            · have he : s.X.length - s.start = 0 := by omega
              have he' : s.X.length - (s.start + 1) = 0 := by omega
              rw [he, he']
              omega
        · -- committed training step
          obtain ⟨hb1, hb2, hb3⟩ :=
            commit_bounds c or' s hcm hng hcoef hmin htsi
          have hsh : s.start + 1 ≤ s.here := by
            have h2 : c.n_coef ≤ span_index s := by
              unfold trainGuard at hng
              push_neg at hng
              exact hng.2
            unfold span_index at h2
            omega
          have hth : trainHere c or' s + 1 =
              s.start + train_span_index c or' s := by
            unfold trainHere
            omega
          unfold accumulateStep
          rw [hc]
          refine ⟨⟨?_, fun _ => ?_, fun _ => ?_⟩, ?_⟩
          · simp only
            omega
          · simp only
            omega
          · simp only
            omega
          · simp only [runMeasure, pcRank, monRank, hmon_false]
            by_cases heq : (trainX c or' s).length = s.X.length
            · have htsi' := hb3 heq
              rw [heq]
              omega
            · have hK := mul_step ((trainX c or' s).length - s.start)
                (s.X.length - s.start) (n₀ + 1) (by omega)
              omega
      · have hstep : stepOnce c or' ⟨s, Pc.l1⟩ = ⟨s, Pc.l2⟩ := by
          simp only [stepOnce]
          rw [if_neg hg]
        rw [hstep]
        refine ⟨⟨hn₀, hmono, fun _ => hlt'⟩, ?_⟩
        simp only [runMeasure, pcRank]
        omega
  | l2 =>
      have hlt' : s.here < s.X.length := hlt (by simp)
      by_cases hg : s.monitoring ∧ can_monitor c s
      · have hstep : stepOnce c or' ⟨s, Pc.l2⟩ =
            ⟨monitorLoopStep c or' s, Pc.l2⟩ := by
          simp only [stepOnce]
          rw [if_pos hg]
        have hcm : can_monitor c s := hg.2
        have hmt : s.monitoring = true := hg.1
        have hsh : s.start ≤ s.here := hmono hmt
        have hhn : s.here + c.consecutive + 1 < s.X.length := hcm
        obtain ⟨huX, huY, hust, huh, hum, hun, hurl⟩ :=
          update_model_fields c or' s
        rw [hstep]
        unfold monitorLoopStep
        rcases monitor_cases c (update_model c or' s) with hmc | hmc
        · rw [hmc]
          refine ⟨⟨?_, fun _ => ?_, fun _ => ?_⟩, ?_⟩
          · simp only
            rw [huX]
            exact hn₀
          · simp only
            rw [hust, huh]
            omega
          · simp only
            rw [huX, huh]
            omega
          · simp only [runMeasure, pcRank, monRank]
            rw [huX, hust, huh, hum, hmt]
            omega
        · rw [hmc]
          refine ⟨⟨?_, ?_, fun _ => ?_⟩, ?_⟩
          · simp only
            rw [huX]
            exact hn₀
          · intro hmm
            simp only at hmm
            exact absurd hmm (by simp)
          · simp only
            rw [huX, huh]
            omega
          · simp only [runMeasure, pcRank, monRank]
            rw [huX, huh, hmt]
            have hK := mul_step (s.X.length - (s.here + 1))
              (s.X.length - s.start) (n₀ + 1) (by omega)
            omega
      · have hstep : stepOnce c or' ⟨s, Pc.l2⟩ =
            ⟨{ s with here := s.here + 1 }, Pc.top⟩ := by
          simp only [stepOnce]
          rw [if_neg hg]
        rw [hstep]
        refine ⟨⟨hn₀, ?_, fun hpc => absurd rfl hpc⟩, ?_⟩
        · intro hmm
          simp only at hmm
          have := hmono hmm
          simp only
          omega
        · simp only [runMeasure, pcRank, monRank]
          omega

theorem runFuel_of_measure (c : Cfg) (or' : Oracles)
    (hmin : 1 ≤ c.min_obs) (hcoef : 1 ≤ c.n_coef) :
    ∀ (b n₀ : Nat) (m : MSt), runMeasure n₀ m < b → RunInv n₀ m →
      ∃ k, (runFuel c or' k m).isSome = true := by
  intro b
  induction b with
  | zero =>
      intro n₀ m hm _
      omega
  | succ b ih =>
      intro n₀ m hm hinv
      by_cases hh : m.pc = Pc.top ∧ ¬ running m.st
      · refine ⟨1, ?_⟩
        unfold runFuel
        rw [if_pos hh]
        rfl
      · obtain ⟨hinv', hdec⟩ :=
          stepOnce_decreases n₀ c or' hmin hcoef m hinv hh
        obtain ⟨k, hk⟩ := ih n₀ (stepOnce c or' m) (by omega) hinv'
        refine ⟨k + 1, ?_⟩
        unfold runFuel
        rw [if_neg hh]
        exact hk

/-- Claim C2, amended: `run()` terminates for every finite observation
sequence: some fuel suffices for the machine to reach the halt state.  The
cursor is, however, not strictly monotonically increasing (see the
counterexample theorem); termination follows instead from the lexicographic
measure `runMeasure` (observation count − segment start, observation count −
cursor, phase, program counter), which every machine step decreases. -/
theorem run_terminates (c : Cfg) (or' : Oracles) (s : St)
    (hmin : 1 ≤ c.min_obs) (hcoef : 1 ≤ c.n_coef)
    (hms : s.monitoring = true → s.start ≤ s.here) :
    ∃ k, (runFuel c or' k (runInit s)).isSome = true := by
  apply runFuel_of_measure c or' hmin hcoef
    (runMeasure s.X.length (runInit s) + 1) s.X.length (runInit s)
    (Nat.lt_succ_self _)
  exact ⟨le_refl _, fun h => hms h, fun hpc => absurd rfl hpc⟩

/-- Witness for the amended C2 at the concrete scenario. -/
theorem run_terminates_witness :
    ∃ k, (runFuel cfgS orS k (runInit sS)).isSome = true :=
  run_terminates cfgS orS sS (by decide) (by decide) (by decide)

/-- Counterexample for claim C2: The scan cursor is not strictly monotonically
increasing over the course of the run: in the concrete scenario the cursor
stands at 4 after three machine steps and at 3 after four (the committed
training step moved it backwards past a masked observation), while the run
still terminates. -/
theorem run_cursor_not_monotone :
    (stepIter cfgS orS 3 mS).st.here = 4 ∧
    (stepIter cfgS orS 4 mS).st.here = 3 ∧
    (stepIter cfgS orS 4 mS).st.here < (stepIter cfgS orS 3 mS).st.here ∧
    (runFuel cfgS orS 20 mS).isSome = true := by
  decide

/-! ### Claim C3: the record-store invariant -/

theorem getD_set_self (l : List α) (i : Nat) (v d : α) (h : i < l.length) :
    (l.set i v).getD i d = v := by
  simp [List.getD_eq_getElem?_getD, List.getElem?_set_self h]

theorem getD_append_left (l₁ l₂ : List α) (i : Nat) (d : α)
    (h : i < l₁.length) :
    (l₁ ++ l₂).getD i d = l₁.getD i d := by
  simp [List.getD_eq_getElem?_getD, List.getElem?_append_left h]

theorem getD_append_length (l : List α) (t d : α) :
    (l ++ [t]).getD l.length d = t := by
  simp [List.getD_eq_getElem?_getD, List.getElem?_append_right (le_refl l.length)]

theorem xdate_nonneg (X : List (List ℚ))
    (hp : ∀ row ∈ X, 0 < row.getD 1 0) (i : Nat) : 0 ≤ xdate X i := by
  unfold xdate
  by_cases hi : i < X.length
  · have hmem : X.getD i [] ∈ X := by
      rw [List.getD_eq_getElem?_getD, List.getElem?_eq_getElem hi]
      exact List.getElem_mem hi
    exact le_of_lt (hp _ hmem)
  · rw [getD_eq_of_length_le _ _ (le_of_not_lt hi)]
    simp

theorem xdate_pos (X : List (List ℚ))
    (hp : ∀ row ∈ X, 0 < row.getD 1 0) (i : Nat) (hi : i < X.length) :
    0 < xdate X i := by
  unfold xdate
  have hmem : X.getD i [] ∈ X := by
    rw [List.getD_eq_getElem?_getD, List.getElem?_eq_getElem hi]
    exact List.getElem_mem hi
  exact hp _ hmem

theorem xdate_mono (X : List (List ℚ))
    (hs : (X.map (fun row => row.getD 1 0)).Pairwise (fun a b => a ≤ b))
    (i j : Nat) (hij : i ≤ j) (hj : j < X.length) :
    xdate X i ≤ xdate X j := by
  rcases eq_or_lt_of_le hij with rfl | hlt
  · exact le_refl _
  · have hi : i < X.length := lt_trans hlt hj
    have hmm := List.pairwise_iff_getElem.mp hs i j
      (by simpa using hi) (by simpa using hj) hlt
    rw [List.getElem_map, List.getElem_map] at hmm
    have e1 : X.getD i [] = X[i] := by
      rw [List.getD_eq_getElem?_getD, List.getElem?_eq_getElem hi]
      rfl
    have e2 : X.getD j [] = X[j] := by
      rw [List.getD_eq_getElem?_getD, List.getElem?_eq_getElem hj]
      rfl
    unfold xdate
    rw [e1, e2]
    exact hmm

/-- Source `update_model` preserves the record-store invariant while monitoring. -/
theorem update_model_preserves_recinv (c : Cfg) (or' : Oracles) (s : St)
    (hgd : GoodData s) (hr : RecInv s) (hmon : s.monitoring = true)
    (hn : s.here < s.X.length) : RecInv (update_model c or' s) := by
  obtain ⟨hsort, hpos⟩ := hgd
  obtain ⟨hse, hbrk, hnr, hfree, hmon'⟩ := hr
  obtain ⟨hsh, hlast⟩ := hmon' hmon
  have hnrlt : s.n_record < s.record.length := by omega
  have hstartstop : xdate s.X s.start ≤ xdate s.X s.here :=
    xdate_mono s.X hsort s.start s.here hsh hn
  have hmemset : ∀ (r' : Rec), r'.start ≤ r'.stop → 0 ≤ r'.start →
      ∀ r ∈ s.record.set s.n_record r', r.start ≤ r.stop ∧ 0 ≤ r.start := by
    intro r' h1 h2 r hmem
    rcases List.mem_or_eq_of_mem_set hmem with hmem | rfl
    · exact hse r hmem
    · exact ⟨h1, h2⟩
  have hbrkset : ∀ (r' : Rec), ∀ i,
      i + 1 < (s.record.set s.n_record r').length →
      0 < ((s.record.set s.n_record r').getD i dRec).brk := by
    intro r' i hi
    rw [List.length_set] at hi
    rw [getD_set_ne _ _ _ _ _ (by omega : s.n_record ≠ i)]
    exact hbrk i hi
  unfold update_model
  split
  · refine ⟨?_, ?_, ?_, ?_, ?_⟩
    · exact hmemset _ hstartstop (xdate_nonneg s.X hpos s.start)
    · exact hbrkset _
    · simpa using hnr
    · intro hmf
      simp only at hmf
      rw [hmon] at hmf
      exact absurd hmf (by simp)
    · intro _
      refine ⟨hsh, ?_⟩
      simp only
      rw [getD_set_self _ _ _ _ hnrlt]
  · refine ⟨?_, ?_, ?_, ?_, ?_⟩
    · have hlastmem : s.record.getD s.n_record dRec ∈ s.record := by
        rw [List.getD_eq_getElem?_getD, List.getElem?_eq_getElem hnrlt]
        exact List.getElem_mem hnrlt
      refine hmemset _ ?_ ?_
      · exact le_trans hlast hstartstop
      · exact (hse _ hlastmem).2
    · exact hbrkset _
    · simpa using hnr
    · intro hmf
      simp only at hmf
      rw [hmon] at hmf
      exact absurd hmf (by simp)
    · intro _
      refine ⟨hsh, ?_⟩
      simp only
      rw [getD_set_self _ _ _ _ hnrlt]
      exact hlast

/-- Source `monitor` preserves the record-store invariant while monitoring. -/
theorem monitor_preserves_recinv (c : Cfg) (s : St)
    (hgd : GoodData s) (hr : RecInv s) (hmon : s.monitoring = true)
    (hn : s.here + 1 < s.X.length) : RecInv (monitor c s) := by
  obtain ⟨hsort, hpos⟩ := hgd
  obtain ⟨hse, hbrk, hnr, hfree, hmon'⟩ := hr
  have hnrlt : s.n_record < s.record.length := by omega
  have hlastmem : s.record.getD s.n_record dRec ∈ s.record := by
    rw [List.getD_eq_getElem?_getD, List.getElem?_eq_getElem hnrlt]
    exact List.getElem_mem hnrlt
  rcases monitor_cases c s with hmc | hmc <;> rw [hmc]
  · exact ⟨hse, hbrk, hnr, hfree, hmon'⟩
  · refine ⟨?_, ?_, ?_, ?_, ?_⟩
    · intro r hmem
      simp only at hmem
      rcases List.mem_append.mp hmem with hmem | hmem
      · rcases List.mem_or_eq_of_mem_set hmem with hmem | rfl
        · exact hse r hmem
        · exact ⟨(hse _ hlastmem).1, (hse _ hlastmem).2⟩
      · rcases List.mem_singleton.mp hmem with rfl
        exact ⟨le_refl 0, le_refl 0⟩
    · intro i hi
      simp only [List.length_append, List.length_set,
        List.length_singleton] at hi
      have hilen : i < s.record.length := by omega
      rw [getD_append_left _ _ _ _ (by simpa using hilen)]
      by_cases hieq : i = s.n_record
      · subst hieq
        rw [getD_set_self _ _ _ _ hnrlt]
        exact xdate_pos s.X hpos _ hn
      · rw [getD_set_ne _ _ _ _ _ (fun h => hieq h.symm)]
        exact hbrk i (by omega)
    · simp only [List.length_append, List.length_set, List.length_singleton]
      omega
    · intro _
      have hidx : s.n_record + 1 = (s.record.set s.n_record
          { s.record.getD s.n_record dRec with
            brk := xdate s.X (s.here + 1) }).length := by
        simp only [List.length_set]
        omega
      constructor
      · simp only
        rw [hidx, getD_append_length]
        rfl
      · simp only
        rw [hidx, getD_append_length]
        rfl
    · intro hmf
      simp only at hmf
      exact absurd hmf (by simp)

/-- One accumulating-loop iteration preserves the invariants. -/
theorem accumulateStep_preserves (c : Cfg) (or' : Oracles) (s : St)
    (hmin : 1 ≤ c.min_obs) (hgd : GoodData s) (hr : RecInv s)
    (hmon : s.monitoring = false) :
    GoodData (accumulateStep c or' s) ∧ RecInv (accumulateStep c or' s) := by
  obtain ⟨hsort, hpos⟩ := hgd
  obtain ⟨hse, hbrk, hnr, hfree, hmon'⟩ := hr
  unfold accumulateStep
  rcases train_cases c or' s with hc | hc | hc | ⟨hng, htsi, hc⟩ <;> rw [hc]
  · refine ⟨⟨hsort, hpos⟩, hse, hbrk, hnr, fun _ => hfree hmon, ?_⟩
    intro hmt
    simp only at hmt
    rw [hmon] at hmt
    exact absurd hmt (by simp)
  · refine ⟨⟨hsort, hpos⟩, hse, hbrk, hnr, fun _ => hfree hmon, ?_⟩
    intro hmt
    simp only at hmt
    rw [hmon] at hmt
    exact absurd hmt (by simp)
  · refine ⟨⟨hsort, hpos⟩, hse, hbrk, hnr, fun _ => hfree hmon, ?_⟩
    intro hmt
    simp only at hmt
    rw [hmon] at hmt
    exact absurd hmt (by simp)
  · have hsort' : ((trainX c or' s).map (fun row => row.getD 1 0)).Pairwise
        (fun a b => a ≤ b) := by
      unfold trainX
      rw [maskFilter_map]
      exact List.Pairwise.sublist (maskFilter_sublist _ _) hsort
    have hpos' : ∀ row ∈ trainX c or' s, 0 < row.getD 1 0 := by
      intro row hmem
      exact hpos row ((maskFilter_sublist _ _).subset hmem)
    refine ⟨⟨hsort', hpos'⟩, hse, hbrk, hnr, ?_, ?_⟩
    · intro hmf
      simp only at hmf
      exact absurd hmf (by simp)
    · intro _
      constructor
      · simp only
        unfold trainHere
        omega
      · simp only
        rw [(hfree hmon).1]
        exact xdate_nonneg _ hpos' s.start

/-- One monitoring-loop iteration preserves the invariants. -/
theorem monitorLoopStep_preserves (c : Cfg) (or' : Oracles) (s : St)
    (hgd : GoodData s) (hr : RecInv s) (hmon : s.monitoring = true)
    (hcm : can_monitor c s) :
    GoodData (monitorLoopStep c or' s) ∧ RecInv (monitorLoopStep c or' s) := by
  have hn : s.here < s.X.length := by
    unfold can_monitor at hcm
    omega
  obtain ⟨huX, huY, hust, huh, hum, hun, hurl⟩ := update_model_fields c or' s
  have hgd_u : GoodData (update_model c or' s) := by
    constructor
    · rw [huX]
      exact hgd.1
    · rw [huX]
      exact hgd.2
  have hr_u : RecInv (update_model c or' s) :=
    update_model_preserves_recinv c or' s hgd hr hmon hn
  have hmon_u : (update_model c or' s).monitoring = true := by
    rw [hum]
    exact hmon
  have hn_u : (update_model c or' s).here + 1 <
      (update_model c or' s).X.length := by
    rw [huh, huX]
    unfold can_monitor at hcm
    omega
  have hr_m : RecInv (monitor c (update_model c or' s)) :=
    monitor_preserves_recinv c _ hgd_u hr_u hmon_u hn_u
  have hgd_m : GoodData (monitor c (update_model c or' s)) := by
    rcases monitor_cases c (update_model c or' s) with hmc | hmc <;> rw [hmc]
    · exact hgd_u
    · exact hgd_u
  unfold monitorLoopStep
  refine ⟨hgd_m, ?_⟩
  obtain ⟨a1, a2, a3, a4, a5⟩ := hr_m
  refine ⟨a1, a2, a3, fun hmf => a4 hmf, ?_⟩
  intro hmt
  obtain ⟨b1, b2⟩ := a5 hmt
  exact ⟨Nat.le_succ_of_le b1, b2⟩

/-- Every machine step preserves the data and record invariants. -/
theorem stepOnce_preserves_recinv (c : Cfg) (or' : Oracles)
    (hmin : 1 ≤ c.min_obs) (m : MSt)
    (hgd : GoodData m.st) (hr : RecInv m.st) :
    GoodData (stepOnce c or' m).st ∧ RecInv (stepOnce c or' m).st := by
  obtain ⟨s, pc⟩ := m
  simp only at hgd hr
  cases pc with
  | top =>
      simp only [stepOnce]
      split
      · exact ⟨hgd, hr⟩
      · exact ⟨hgd, hr⟩
  | l1 =>
      simp only [stepOnce]
      split
      · next hg =>
          exact accumulateStep_preserves c or' s hmin hgd hr
            (Bool.eq_false_iff.mpr hg.1)
      · exact ⟨hgd, hr⟩
  | l2 =>
      simp only [stepOnce]
      split
      · next hg =>
          exact monitorLoopStep_preserves c or' s hgd hr hg.1 hg.2
      · obtain ⟨a1, a2, a3, a4, a5⟩ := hr
        refine ⟨hgd, a1, a2, a3, fun hmf => a4 hmf, ?_⟩
        intro hmt
        obtain ⟨b1, b2⟩ := a5 hmt
        exact ⟨Nat.le_succ_of_le b1, b2⟩

/-- Claim C3, amended: At every point during `run()` — after any number of
machine steps — and in the final state `run()` returns, every record in the
store satisfies `start ≤ end`, and every record except the last carries a
positive break date ("at most the last record is open").  The records are
NOT in non-decreasing `start` order in general: a record opened after a
break keeps the template `start = 0` until the next yearly refit, which is
the counterexample to the original claim. -/
theorem record_invariants_preserved (c : Cfg) (or' : Oracles)
    (hmin : 1 ≤ c.min_obs) :
    ∀ (k : Nat) (m : MSt), GoodData m.st → RecInv m.st →
      (GoodData (stepIter c or' k m).st ∧ RecInv (stepIter c or' k m).st) ∧
      (∀ st, runFuel c or' k m = some st →
        (∀ r ∈ st.record, r.start ≤ r.stop) ∧
        (∀ i, i + 1 < st.record.length →
          0 < (st.record.getD i dRec).brk)) := by
  intro k
  induction k with
  | zero =>
      intro m hg hr
      refine ⟨⟨hg, hr⟩, fun st hst => absurd hst (by simp [runFuel])⟩
  | succ k ih =>
      intro m hg hr
      obtain ⟨hg', hr'⟩ := stepOnce_preserves_recinv c or' hmin m hg hr
      constructor
      · exact (ih (stepOnce c or' m) hg' hr').1
      · intro st hst
        unfold runFuel at hst
        split_ifs at hst with hh
        · injection hst with hst
          subst hst
          obtain ⟨a1, a2, _, _, _⟩ := hr
          exact ⟨fun r hmem => (a1 r hmem).1, a2⟩
        · exact (ih (stepOnce c or' m) hg' hr').2 st hst

/-- Witness for the amended C3 at the concrete scenario. -/
theorem record_invariants_preserved_witness :
    GoodData (stepIter cfgS orS 20 mS).st ∧
      RecInv (stepIter cfgS orS 20 mS).st :=
  ((record_invariants_preserved cfgS orS (by decide)) 20 mS
    (by constructor
        · decide
        · decide)
    (by refine ⟨by decide, ?_, rfl, fun _ => ⟨rfl, rfl⟩,
          fun h => absurd h (by decide)⟩
        intro i hi
        have hlen : mS.st.record.length = 1 := by decide
        rw [hlen] at hi
        omega)).1

/-- Counterexample for claim C3: After the scenario run completes, the record
store is `[{start = 1000, …}, {start = 0, …}]`: the final (still open)
record keeps the template `start = 0`, so the records are not in
non-decreasing `start` order. -/
theorem record_order_violated :
    (runFuel cfgS orS 20 mS).isSome = true ∧
    ((runFuel cfgS orS 20 mS).getD sS).record.map Rec.start = [1000, 0] ∧
    ¬ ((runFuel cfgS orS 20 mS).getD sS).record.Pairwise
        (fun a b => a.start ≤ b.start) := by
  refine ⟨by decide, by decide, by decide⟩

end Yatsm

